import Mathlib

/-!
Verification of the Smart Attendance System core

Shallow embedding of the core logic of the Smart Attendance System
repository (face matching, cooldown deduplication, durable attendance
recording, embedding store maintenance), together with theorems settling
the specification claims about it.

Source files embedded:
* `config.py` — configuration constants.
* `face_recognition_model.py` — `FaceRecognitionModel.recognize_faces`,
  `add_person`, `remove_person`, `load_encodings`, `get_known_names`.
* `database.py` — `AttendanceDatabase.mark_attendance`,
  `is_recent_attendance`, `log_to_csv`.
* `attendance_system.py` — `AttendanceSystem.process_attendance`.

Instants are modelled as rational numbers of seconds (Python `time.time()` /
`datetime` values); embedding vectors are kept abstract (a type `α`) with the
external encoder's distance metric `d : α → α → ℚ` passed explicitly, since
`face_recognition.face_distance` is an external library capability (Euclidean
distance over 128-vectors).  Metric facts used by a theorem (non-negativity,
`d x x = 0`, separation) appear as explicit hypotheses.
-/

set_option autoImplicit false

namespace SmartAttendance

/-! ## Configuration constants (`config.py`) -/

/-- Config constant `FACE_RECOGNITION_TOLERANCE = 0.6` (config.py line 20). -/
def FACE_RECOGNITION_TOLERANCE : ℚ := 6/10

/-- Config constant `CONFIDENCE_THRESHOLD = 0.6` (config.py line 31). -/
def CONFIDENCE_THRESHOLD : ℚ := 6/10

/-- Config constant `ATTENDANCE_COOLDOWN_MINUTES = 5` (config.py line 30). -/
def ATTENDANCE_COOLDOWN_MINUTES : ℚ := 5

/-! ## MatchEngine: `FaceRecognitionModel.recognize_faces`

The per-face body of the loop in `recognize_faces` (face_recognition_model.py
lines 93–112).  `face_recognition.face_distance(known, x)` returns the list of
distances from `x` to each known encoding; `compare_faces(known, x, tol)`
returns `list(face_distance(known, x) <= tol)` elementwise; `np.argmin`
returns the index of the first occurrence of the minimum value. -/

/-- Minimum of a list of rationals (`np.min` over a non-empty list;
the `[]` value 0 is never used on the paths the code takes). -/
def listMin : List ℚ → ℚ
  | [] => 0
  | [x] => x
  | x :: y :: ys => min x (listMin (y :: ys))

/-- Index of the first occurrence of the minimum (`np.argmin`). -/
def npArgmin : List ℚ → ℕ
  | [] => 0
  | [_] => 0
  | x :: y :: ys => if x ≤ listMin (y :: ys) then 0 else npArgmin (y :: ys) + 1

/-- Distances `face_recognition.face_distance(known_encodings, x)` from the
probe embedding `x` to each registered embedding, under the encoder's
metric `d`. -/
def faceDistance {α : Type} (d : α → α → ℚ) (knownEncodings : List α) (x : α) :
    List ℚ :=
  knownEncodings.map fun e => d e x

/-- Elementwise `face_recognition.compare_faces(known_encodings, x, tolerance)`,
elementwise `distance ≤ tolerance`. -/
def compareFaces {α : Type} (d : α → α → ℚ) (tol : ℚ)
    (knownEncodings : List α) (x : α) : List Bool :=
  (faceDistance d knownEncodings x).map fun dist => decide (dist ≤ tol)

/-- One iteration of the per-face loop of `recognize_faces`
(face_recognition_model.py lines 93–112):

```
matches = compare_faces(known_encodings, face_encoding, tolerance)
name = "Unknown"; confidence = 0.0
face_distances = face_distance(known_encodings, face_encoding)
if len(face_distances) > 0:
    best_match_index = np.argmin(face_distances)
    if matches[best_match_index]:
        name = known_names[best_match_index]
        confidence = 1 - face_distances[best_match_index]
```

List indexing is Python indexing: an out-of-range access raises, which the
embedding renders as `none`. -/
def recognizeOne {α : Type} (d : α → α → ℚ) (tol : ℚ) (knownEncodings : List α)
    (knownNames : List String) (x : α) : Option (String × ℚ) :=
  let faceMatches := compareFaces d tol knownEncodings x
  let faceDistances := faceDistance d knownEncodings x
  if 0 < faceDistances.length then
    let bestMatchIndex := npArgmin faceDistances
    match faceMatches.get? bestMatchIndex with
    | none => none
    | some m =>
      if m then
        match knownNames.get? bestMatchIndex, faceDistances.get? bestMatchIndex with
        | some name, some dist => some (name, 1 - dist)
        | _, _ => none
      else
        some ("Unknown", 0)
  else
    some ("Unknown", 0)

/-- One-dimensional Euclidean distance on rational "embeddings", used to
instantiate the abstract metric in concrete witnesses. -/
def ratDist (a b : ℚ) : ℚ := |a - b|

/-! ## EmbeddingStore: `FaceRecognitionModel` list maintenance

The model keeps two parallel lists, `known_encodings` and `known_names`
(face_recognition_model.py lines 14–15), mutated by `load_encodings`,
`add_person` and `remove_person`. -/

/-- Ascending index list `[i for i, known_name in enumerate(known_names) if known_name == name]`
(face_recognition_model.py line 121): the ascending list of indices owned by
`name`. -/
def indicesToRemove (knownNames : List String) (name : String) : List ℕ :=
  match knownNames with
  | [] => []
  | n :: ns =>
    (if n = name then [0] else []) ++ (indicesToRemove ns name).map (· + 1)

/-- Deletion loop `for i in reversed(indices_to_remove): del lst[i]`
(face_recognition_model.py lines 125–127): delete the given index set from a
list, largest index first. -/
def eraseIdxs {α : Type} (idxs : List ℕ) (l : List α) : List α :=
  idxs.reverse.foldl (fun acc i => acc.eraseIdx i) l

/-- Embedding of `FaceRecognitionModel.remove_person` (face_recognition_model.py lines
119–134).  Returns the two updated lists and the boolean the Python method
returns (`True` iff anything was removed); the `save_encodings` call and the
printed count are I/O outside the state this claimset concerns. -/
def removePerson {α : Type} (knownEncodings : List α) (knownNames : List String)
    (name : String) : List α × List String × Bool :=
  let idxs := indicesToRemove knownNames name
  if idxs.isEmpty then
    (knownEncodings, knownNames, false)
  else
    (eraseIdxs idxs knownEncodings, eraseIdxs idxs knownNames, true)

/-- Embedding of `FaceRecognitionModel.add_person`, state-mutating tail
(face_recognition_model.py lines 70–78), given the encodings successfully
extracted from the supplied images (the cv2/face_recognition image work is
external): `known_encodings.extend(person_encodings)`;
`known_names.extend([name] * len(person_encodings))`; returns `True`, or
`False` leaving the state untouched when no encoding was produced. -/
def addPerson {α : Type} (knownEncodings : List α) (knownNames : List String)
    (name : String) (personEncodings : List α) : List α × List String × Bool :=
  if personEncodings.isEmpty then
    (knownEncodings, knownNames, false)
  else
    (knownEncodings ++ personEncodings,
     knownNames ++ List.replicate personEncodings.length name,
     true)

/-- Embedding of `FaceRecognitionModel.load_encodings` (face_recognition_model.py lines
18–32).  `filesExist` is `os.path.exists(ENCODINGS_FILE) and
os.path.exists(NAMES_FILE)`; each pickle load either yields a value or raises
(`Except.error`).  Any raise resets both lists to `[]`; missing files leave
the fresh `([], [])` state. -/
def loadEncodings {α : Type} (filesExist : Bool)
    (encodingsData : Except String (List α))
    (namesData : Except String (List String)) : List α × List String :=
  if filesExist then
    match encodingsData, namesData with
    | .ok e, .ok n => (e, n)
    | _, _ => ([], [])
  else
    ([], [])

/-- Embedding of `FaceRecognitionModel.get_known_names` (face_recognition_model.py lines
136–138): `list(set(known_names))`, i.e. the deduplicated identities. -/
def getKnownNames (knownNames : List String) : List String :=
  knownNames.dedup

/-! ## AttendanceRecorder: `AttendanceDatabase` (`database.py`)

The durable store is modelled as the list of `attendance` rows, the mirrored
CSV log lines, and the `users` table rows the insert consults for its
`user_id` column. -/

/-- One row of the `attendance` table (database.py lines 29–39).  The `date`
column is derived from the instant; it is modelled as the calendar-day index
`⌊t / 86400⌋`. -/
structure AttendanceRow where
  userId : Option ℕ
  name : String
  timestamp : ℚ
  date : ℤ
  confidence : Option ℚ
deriving DecidableEq

/-- One line of the per-day CSV export (`log_to_csv`, database.py lines
126–145); the Date/Time columns are derived from the timestamp. -/
structure CsvRow where
  name : String
  timestamp : ℚ
  confidence : Option ℚ
deriving DecidableEq

/-- Durable-store state: `attendance` rows, CSV log, `users` table
(id, name). -/
structure DBState where
  attendance : List AttendanceRow
  csv : List CsvRow
  users : List (ℕ × String)
deriving DecidableEq

/-- Calendar date of an instant (`now.strftime(DATE_FORMAT)`), modelled as the
day index. -/
def dateOf (t : ℚ) : ℤ := ⌊t / 86400⌋

/-- Embedding of `AttendanceDatabase.get_user_by_name` (database.py lines 62–71): first
`users` row with the given name, if any. -/
def getUserByName (db : DBState) (name : String) : Option (ℕ × String) :=
  db.users.find? fun u => decide (u.2 = name)

/-- Embedding of `AttendanceDatabase.is_recent_attendance` (database.py lines 110–124):
`SELECT COUNT(*) FROM attendance WHERE name = ? AND timestamp > ?` with the
cutoff `now - minutes`, then `count > 0`. -/
def isRecentAttendance (db : DBState) (name : String) (now minutes : ℚ) : Bool :=
  decide (0 < (db.attendance.filter fun r =>
    decide (r.name = name ∧ now - minutes * 60 < r.timestamp)).length)

/-- Embedding of `AttendanceDatabase.mark_attendance` (database.py lines 80–108):
if `is_recent_attendance(name, minutes=5)` then return
`(False, "Attendance already marked recently")` without touching the store;
otherwise insert the attendance row (with the `users` lookup for `user_id`),
append the CSV line, and return `(True, "Attendance marked successfully")`. -/
def markAttendance (db : DBState) (name : String) (confidence : Option ℚ)
    (now : ℚ) : DBState × Bool × String :=
  if isRecentAttendance db name now 5 then
    (db, false, "Attendance already marked recently")
  else
    let userId := (getUserByName db name).map Prod.fst
    ({ db with
        attendance := db.attendance ++
          [{ userId := userId, name := name, timestamp := now,
             date := dateOf now, confidence := confidence }],
        csv := db.csv ++
          [{ name := name, timestamp := now, confidence := confidence }] },
     true, "Attendance marked successfully")

/-! ## CooldownGuard and CapturePipeline:
`AttendanceSystem.process_attendance` (`attendance_system.py` lines 122–143)

`last_attendance` is the in-memory per-person cooldown map. -/

/-- The in-memory cooldown map `self.last_attendance`. -/
def LastAttendance : Type := String → Option ℚ

/-- Guard update `self.last_attendance[name] = current_time` (attendance_system.py line
140): the guard's record-accept operation. -/
def recordAccept (last : LastAttendance) (name : String) (t : ℚ) :
    LastAttendance :=
  fun n => if n = name then some t else last n

/-- The in-memory cooldown check of `process_attendance`
(attendance_system.py lines 131–134): the attempt proceeds unless `name` has
an entry `t0` with `t - t0 < cooldownMinutes * 60`.  `cooldownMinutes` is the
configured `ATTENDANCE_COOLDOWN_MINUTES`. -/
def shouldAccept (cooldownMinutes : ℚ) (last : LastAttendance) (name : String)
    (t : ℚ) : Bool :=
  match last name with
  | none => true
  | some t0 => !decide (t - t0 < cooldownMinutes * 60)

/-- In-memory-plus-durable system state of `AttendanceSystem`. -/
structure SysState where
  lastAttendance : LastAttendance
  db : DBState

/-- Trace events instrumenting which collaborators one loop iteration of
`process_attendance` actually reached: the in-memory cooldown consult
(lines 131–134) and the durable recorder call (line 137). -/
inductive Event where
  | cooldownChecked (name : String)
  | recorderInvoked (name : String)
deriving DecidableEq

/-- Outcome of the `self.db.mark_attendance(name, confidence)` call as seen by
`process_attendance`: a normal `(success, message)` return, or a raised
database exception (a durability failure; `mark_attendance` catches
nothing). -/
inductive DbOutcome where
  | ret (success : Bool) (message : String)
  | raise (err : String)

/-- One iteration of the `for name, confidence in zip(...)` loop of
`AttendanceSystem.process_attendance` (attendance_system.py lines 126–143),
with the durable call's outcome and resulting store passed explicitly so a
raised durability error can be modelled alongside the normal return:

```
if name == "Unknown" or confidence < CONFIDENCE_THRESHOLD: continue
if name in self.last_attendance:
    if current_time - self.last_attendance[name] < COOLDOWN*60: continue
success, message = self.db.mark_attendance(name, confidence)   # may raise
if success:
    self.last_attendance[name] = current_time; print("Attendance marked ...")
else:
    print(message + " for " + name)
```

A raised exception propagates out of `process_attendance` uncaught
(`Except.error`).  The third component of the result collects the printed
lines. -/
def processFaceWith (st : SysState) (name : String) (confidence t : ℚ)
    (outcome : DbOutcome) (db' : DBState) :
    Except String (SysState × List Event × List String) :=
  if name = "Unknown" ∨ confidence < CONFIDENCE_THRESHOLD then
    .ok (st, [], [])
  else if shouldAccept ATTENDANCE_COOLDOWN_MINUTES st.lastAttendance name t
      = false then
    .ok (st, [Event.cooldownChecked name], [])
  else
    match outcome with
    | .raise e => .error e
    | .ret success message =>
      if success then
        .ok ({ lastAttendance := recordAccept st.lastAttendance name t,
               db := db' },
             [Event.cooldownChecked name, Event.recorderInvoked name],
             ["Attendance marked for " ++ name])
      else
        .ok ({ lastAttendance := st.lastAttendance, db := db' },
             [Event.cooldownChecked name, Event.recorderInvoked name],
             [message ++ " for " ++ name])

/-- One iteration of the `process_attendance` loop on the concrete database
layer: the durable call is `markAttendance` (which returns normally). -/
def processFace (st : SysState) (name : String) (confidence t : ℚ) :
    Except String (SysState × List Event × List String) :=
  let m := markAttendance st.db name (some confidence) t
  processFaceWith st name confidence t (.ret m.2.1 m.2.2) m.1

/-- Freshly initialized durable store (empty tables, as created by
`init_database`). -/
def emptyDB : DBState := { attendance := [], csv := [], users := [] }

/-- Freshly initialized system state: empty cooldown map
(`self.last_attendance = {}`) over an empty store. -/
def freshSys : SysState := { lastAttendance := fun _ => none, db := emptyDB }

/-! ## Helper lemmas: `listMin` and `npArgmin` -/

theorem listMin_le_of_mem : ∀ {l : List ℚ} {a : ℚ}, a ∈ l → listMin l ≤ a
  | [x], a, ha => by
    rcases List.mem_singleton.mp ha with rfl
    exact le_of_eq rfl
  | x :: y :: ys, a, ha => by
    rw [show listMin (x :: y :: ys) = min x (listMin (y :: ys)) from rfl]
    rcases List.mem_cons.mp ha with rfl | ha'
    · exact min_le_left _ _
    · exact le_trans (min_le_right _ _) (listMin_le_of_mem ha')

theorem npArgmin_lt_length : ∀ (l : List ℚ), l ≠ [] → npArgmin l < l.length
  | [_], _ => Nat.zero_lt_one
  | x :: y :: ys, _ => by
    rw [show npArgmin (x :: y :: ys)
        = if x ≤ listMin (y :: ys) then 0 else npArgmin (y :: ys) + 1 from rfl]
    split
    · simp
    · have := npArgmin_lt_length (y :: ys) (by simp)
      simpa [List.length_cons] using Nat.succ_lt_succ this

theorem get?_npArgmin : ∀ (l : List ℚ), l ≠ [] →
    l.get? (npArgmin l) = some (listMin l)
  | [x], _ => rfl
  | x :: y :: ys, _ => by
    rw [show npArgmin (x :: y :: ys)
        = if x ≤ listMin (y :: ys) then 0 else npArgmin (y :: ys) + 1 from rfl,
      show listMin (x :: y :: ys) = min x (listMin (y :: ys)) from rfl]
    by_cases hx : x ≤ listMin (y :: ys)
    · simp [hx, min_eq_left hx]
    · have ih := get?_npArgmin (y :: ys) (by simp)
      simp only [hx, if_false, List.get?_cons_succ, ih]
      have : min x (listMin (y :: ys)) = listMin (y :: ys) :=
        min_eq_right (le_of_lt (lt_of_not_le hx))
      rw [this]

theorem listMin_lt_get_of_lt_npArgmin :
    ∀ (l : List ℚ) (j : ℕ), j < npArgmin l → ∀ (hjl : j < l.length),
      listMin l < l.get ⟨j, hjl⟩
  | [_], j, hj, _ => by
    simp [npArgmin] at hj
  | x :: y :: ys, j, hj, hjl => by
    rw [show npArgmin (x :: y :: ys)
        = if x ≤ listMin (y :: ys) then 0 else npArgmin (y :: ys) + 1 from rfl]
      at hj
    rw [show listMin (x :: y :: ys) = min x (listMin (y :: ys)) from rfl]
    by_cases hx : x ≤ listMin (y :: ys)
    · rw [if_pos hx] at hj; exact absurd hj (Nat.not_lt_zero j)
    · rw [if_neg hx] at hj
      have hmin : min x (listMin (y :: ys)) = listMin (y :: ys) :=
        min_eq_right (le_of_lt (lt_of_not_le hx))
      rw [hmin]
      match j with
      | 0 => exact lt_of_not_le hx
      | j' + 1 =>
        have hj' : j' < npArgmin (y :: ys) := Nat.lt_of_succ_lt_succ hj
        have hjl' : j' < (y :: ys).length := Nat.lt_of_succ_lt_succ hjl
        exact listMin_lt_get_of_lt_npArgmin (y :: ys) j' hj' hjl'

theorem npArgmin_le_of_get_eq (l : List ℚ) (j : ℕ) (hjl : j < l.length)
    (h : l.get ⟨j, hjl⟩ = listMin l) : npArgmin l ≤ j := by
  by_contra hlt
  have := listMin_lt_get_of_lt_npArgmin l j (Nat.lt_of_not_le hlt) hjl
  rw [h] at this
  exact lt_irrefl _ this

theorem listMin_mem (l : List ℚ) (h : l ≠ []) : listMin l ∈ l := by
  have := get?_npArgmin l h
  exact List.get?_mem this

theorem listMin_eq_zero {l : List ℚ} (h0 : (0:ℚ) ∈ l)
    (hpos : ∀ a ∈ l, 0 ≤ a) : listMin l = 0 := by
  have h1 : listMin l ≤ 0 := listMin_le_of_mem h0
  have h2 : 0 ≤ listMin l :=
    hpos _ (listMin_mem l (List.ne_nil_of_mem h0))
  exact le_antisymm h1 h2

theorem compareFaces_get? {α : Type} (d : α → α → ℚ) (tol : ℚ)
    (enc : List α) (x : α) (i : ℕ) :
    (compareFaces d tol enc x).get? i
      = ((faceDistance d enc x).get? i).map fun dist => decide (dist ≤ tol) := by
  simp [compareFaces, List.get?_map]

/-- Characterization of `recognizeOne` on a non-empty population: the branch
taken is decided by comparing the minimum distance with the tolerance, and an
accepted match reads the name at the argmin index. -/
theorem recognizeOne_eq {α : Type} (d : α → α → ℚ) (tol : ℚ) (enc : List α)
    (names : List String) (x : α) (henc : enc ≠ []) :
    recognizeOne d tol enc names x =
      if listMin (faceDistance d enc x) ≤ tol then
        match names.get? (npArgmin (faceDistance d enc x)) with
        | some nm => some (nm, 1 - listMin (faceDistance d enc x))
        | none => none
      else
        some ("Unknown", 0) := by
  have hne : faceDistance d enc x ≠ [] := by
    simp [faceDistance, henc]
  have hlen : 0 < (faceDistance d enc x).length := List.length_pos.mpr hne
  have hget := get?_npArgmin _ hne
  by_cases htol : listMin (faceDistance d enc x) ≤ tol
  · simp only [recognizeOne, if_pos hlen, compareFaces_get?, hget,
      Option.map_some', htol, if_pos, decide_eq_true_eq, if_true,
      decide_eq_true htol]
    cases names.get? (npArgmin (faceDistance d enc x)) <;> rfl
  · simp only [recognizeOne, if_pos hlen, compareFaces_get?, hget,
      Option.map_some']
    rw [if_neg htol]
    have : decide (listMin (faceDistance d enc x) ≤ tol) = false :=
      decide_eq_false htol
    rw [this]
    simp

/-- Claim C3.  For every registered population and every input embedding whose
minimum distance to the population's embeddings is strictly greater than the
tolerance, `recognize_faces` yields the `"Unknown"` sentinel (with confidence
0), regardless of which registered identity attained that minimum. -/
theorem unknown_when_min_distance_above_tolerance {α : Type} (d : α → α → ℚ)
    (tol : ℚ) (enc : List α) (names : List String) (x : α) (henc : enc ≠ [])
    (hmin : tol < listMin (faceDistance d enc x)) :
    recognizeOne d tol enc names x = some ("Unknown", 0) := by
  rw [recognizeOne_eq d tol enc names x henc, if_neg (not_le.mpr hmin)]

/-- Witness for C3: population `{"alice"}` at embedding `0`, probe `2`:
minimum distance `2 > 0.6`, so the result is `("Unknown", 0)`. -/
theorem unknown_when_min_distance_above_tolerance_witness :
    recognizeOne ratDist FACE_RECOGNITION_TOLERANCE [(0:ℚ)] ["alice"] 2
      = some ("Unknown", 0) :=
  unknown_when_min_distance_above_tolerance ratDist FACE_RECOGNITION_TOLERANCE
    [(0:ℚ)] ["alice"] 2 (by simp)
    (by norm_num [listMin, faceDistance, ratDist, FACE_RECOGNITION_TOLERANCE])

/-- Claim C4.  For every non-empty registered population and input embedding
exactly equal to a member embedding, the match returns the identity of a
member owning that exact embedding, with confidence exactly `1`
(hence `≥ 1 − tolerance`).  In particular, for population
`{"alice": [e1]}` and input `e1` the result is `("alice", 1)` (see the
witness).  The metric hypotheses are the Euclidean-distance facts
`d y y = 0`, `0 ≤ d y z`, and `d y z = 0 → y = z`. -/
theorem exact_member_match {α : Type} (d : α → α → ℚ) (tol : ℚ)
    (enc : List α) (names : List String) (x : α)
    (hd0 : ∀ y, d y y = 0) (hdnn : ∀ y z, 0 ≤ d y z)
    (hdsep : ∀ y z, d y z = 0 → y = z)
    (hlen : enc.length = names.length) (htol : 0 ≤ tol) (hmem : x ∈ enc) :
    ∃ j nm, enc.get? j = some x ∧ names.get? j = some nm ∧
      recognizeOne d tol enc names x = some (nm, 1) ∧ 1 - tol ≤ (1:ℚ) := by
  have henc : enc ≠ [] := List.ne_nil_of_mem hmem
  have hne : faceDistance d enc x ≠ [] := by simp [faceDistance, henc]
  have h0mem : (0:ℚ) ∈ faceDistance d enc x := by
    have h := List.mem_map_of_mem (fun e => d e x) hmem
    simpa [faceDistance, hd0 x] using h
  have hnn : ∀ a ∈ faceDistance d enc x, 0 ≤ a := by
    intro a ha
    obtain ⟨e, _, rfl⟩ := List.mem_map.mp ha
    exact hdnn e x
  have hminz : listMin (faceDistance d enc x) = 0 := listMin_eq_zero h0mem hnn
  set i := npArgmin (faceDistance d enc x) with hi
  have hget : (faceDistance d enc x).get? i = some 0 := by
    rw [get?_npArgmin _ hne, hminz]
  have hgete : ∃ e, enc.get? i = some e ∧ d e x = 0 := by
    have : (enc.map fun e => d e x).get? i = some 0 := hget
    rw [List.get?_map] at this
    obtain ⟨e, he, hde⟩ := Option.map_eq_some'.mp this
    exact ⟨e, he, hde⟩
  obtain ⟨e, he, hde⟩ := hgete
  have hex : e = x := hdsep e x hde
  have hilen : i < names.length := by
    have h1 : i < (faceDistance d enc x).length := npArgmin_lt_length _ hne
    have h2 : (faceDistance d enc x).length = enc.length := by
      simp [faceDistance]
    omega
  have hnm : names.get? i = some (names.get ⟨i, hilen⟩) :=
    List.get?_eq_get hilen
  refine ⟨i, names.get ⟨i, hilen⟩, hex ▸ he, hnm, ?_, by linarith⟩
  rw [recognizeOne_eq d tol enc names x henc, hminz, if_pos htol, ← hi, hnm]
  norm_num

/-- Witness for C4 (the spec scenario): population `{"alice": [1/2]}`, input
embedding `1/2` exactly; the match is `"alice"` with confidence exactly 1. -/
theorem exact_member_match_witness :
    ∃ j nm, [(1:ℚ)/2].get? j = some (1/2) ∧ ["alice"].get? j = some nm ∧
      recognizeOne ratDist FACE_RECOGNITION_TOLERANCE [(1:ℚ)/2] ["alice"] (1/2)
        = some (nm, 1) ∧
      1 - FACE_RECOGNITION_TOLERANCE ≤ (1:ℚ) :=
  exact_member_match ratDist FACE_RECOGNITION_TOLERANCE [(1:ℚ)/2] ["alice"]
    (1/2)
    (fun y => by simp [ratDist])
    (fun y z => abs_nonneg _)
    (fun y z h => by
      have := abs_eq_zero.mp h
      linarith [this])
    rfl (by norm_num [FACE_RECOGNITION_TOLERANCE]) (by simp)

/-- Claim C6.  Every result `recognize_faces` produces at the configured
tolerance (0.6) has confidence in `[0, 1]`; an `"Unknown"` result carries
confidence 0, and an accepted match carries confidence exactly
`1 − (minimum distance)` — monotonically decreasing in the distance.  The
hypothesis is the Euclidean fact that distances are non-negative. -/
theorem confidence_bounds {α : Type} (d : α → α → ℚ) (enc : List α)
    (names : List String) (x : α) (nm : String) (c : ℚ)
    (hdnn : ∀ y z, 0 ≤ d y z)
    (hres : recognizeOne d FACE_RECOGNITION_TOLERANCE enc names x
      = some (nm, c)) :
    (0 ≤ c ∧ c ≤ 1) ∧
      ((nm = "Unknown" ∧ c = 0) ∨
        c = 1 - listMin (faceDistance d enc x)) := by
  by_cases henc : enc = []
  · subst henc
    have h12 : "Unknown" = nm ∧ (0:ℚ) = c := by
      simpa [recognizeOne, faceDistance] using hres
    obtain ⟨h1, h2⟩ := h12
    rw [← h1, ← h2]
    exact ⟨⟨le_refl 0, by norm_num⟩, Or.inl ⟨rfl, rfl⟩⟩
  · have hne : faceDistance d enc x ≠ [] := by simp [faceDistance, henc]
    have hnn : 0 ≤ listMin (faceDistance d enc x) := by
      have hm := listMin_mem _ hne
      obtain ⟨e, _, he⟩ := List.mem_map.mp hm
      rw [← he]; exact hdnn e x
    rw [recognizeOne_eq d _ enc names x henc] at hres
    by_cases htol : listMin (faceDistance d enc x) ≤ FACE_RECOGNITION_TOLERANCE
    · rw [if_pos htol] at hres
      cases hq : names.get? (npArgmin (faceDistance d enc x)) with
      | none => rw [hq] at hres; exact absurd hres (by simp)
      | some nm' =>
        rw [hq] at hres
        have h12 : nm' = nm ∧ 1 - listMin (faceDistance d enc x) = c := by
          simpa using hres
        obtain ⟨h1, h2⟩ := h12
        have htol' : listMin (faceDistance d enc x) ≤ 6/10 := htol
        refine ⟨⟨?_, ?_⟩, Or.inr h2.symm⟩
        · rw [← h2]; linarith
        · rw [← h2]; linarith
    · rw [if_neg htol] at hres
      have h12 : "Unknown" = nm ∧ (0:ℚ) = c := by simpa using hres
      obtain ⟨h1, h2⟩ := h12
      rw [← h1, ← h2]
      exact ⟨⟨le_refl 0, by norm_num⟩, Or.inl ⟨rfl, rfl⟩⟩

/-- Witness for C6: population at embedding `1/2`, probe `1/4`; the accepted
match has confidence `3/4 = 1 − 1/4`, inside `[0, 1]`. -/
theorem confidence_bounds_witness :
    ((0:ℚ) ≤ 3/4 ∧ (3:ℚ)/4 ≤ 1) ∧
      (("a" = "Unknown" ∧ (3:ℚ)/4 = 0) ∨
        (3:ℚ)/4 = 1 - listMin (faceDistance ratDist [(1:ℚ)/2] (1/4))) :=
  confidence_bounds ratDist [(1:ℚ)/2] ["a"] (1/4) "a" (3/4)
    (fun y z => abs_nonneg _)
    (by norm_num [recognizeOne, compareFaces, faceDistance, npArgmin, listMin,
      ratDist, FACE_RECOGNITION_TOLERANCE, abs_of_nonneg])

/-- Claim C8.  On a non-empty population with an accepted minimum (distance at
or below tolerance), the identity returned is the one stored at the lowest
index attaining the minimum distance in snapshot order.  Determinism is
definitional: the embedding `recognizeOne` is a pure function of the snapshot
and the input. -/
theorem tie_break_lowest_index {α : Type} (d : α → α → ℚ) (tol : ℚ)
    (enc : List α) (names : List String) (x : α)
    (hlen : enc.length = names.length) (henc : enc ≠ [])
    (hacc : listMin (faceDistance d enc x) ≤ tol) :
    ∃ i nm,
      (faceDistance d enc x).get? i
        = some (listMin (faceDistance d enc x)) ∧
      (∀ j (hj : j < (faceDistance d enc x).length),
        (faceDistance d enc x).get ⟨j, hj⟩ = listMin (faceDistance d enc x) →
          i ≤ j) ∧
      names.get? i = some nm ∧
      recognizeOne d tol enc names x
        = some (nm, 1 - listMin (faceDistance d enc x)) := by
  have hne : faceDistance d enc x ≠ [] := by simp [faceDistance, henc]
  set i := npArgmin (faceDistance d enc x) with hi
  have hilen : i < names.length := by
    have h1 : i < (faceDistance d enc x).length := npArgmin_lt_length _ hne
    have h2 : (faceDistance d enc x).length = enc.length := by
      simp [faceDistance]
    omega
  have hnm : names.get? i = some (names.get ⟨i, hilen⟩) :=
    List.get?_eq_get hilen
  refine ⟨i, names.get ⟨i, hilen⟩, get?_npArgmin _ hne, ?_, hnm, ?_⟩
  · intro j hj hjmin
    exact npArgmin_le_of_get_eq _ j hj hjmin
  · rw [recognizeOne_eq d tol enc names x henc, if_pos hacc, ← hi, hnm]

/-- Witness for C8: distances `[1, 0, 0]` — the minimum 0 is attained at
indices 1 and 2, and the identity returned is the one at index 1, `"b"`. -/
theorem tie_break_lowest_index_witness :
    ∃ i nm,
      (faceDistance ratDist [(2:ℚ), 1, 1] 1).get? i
        = some (listMin (faceDistance ratDist [(2:ℚ), 1, 1] 1)) ∧
      (∀ j (hj : j < (faceDistance ratDist [(2:ℚ), 1, 1] 1).length),
        (faceDistance ratDist [(2:ℚ), 1, 1] 1).get ⟨j, hj⟩
          = listMin (faceDistance ratDist [(2:ℚ), 1, 1] 1) → i ≤ j) ∧
      ["a", "b", "c"].get? i = some nm ∧
      recognizeOne ratDist FACE_RECOGNITION_TOLERANCE [(2:ℚ), 1, 1] ["a", "b", "c"] 1
        = some (nm, 1 - listMin (faceDistance ratDist [(2:ℚ), 1, 1] 1)) :=
  tie_break_lowest_index ratDist FACE_RECOGNITION_TOLERANCE [(2:ℚ), 1, 1]
    ["a", "b", "c"] 1 rfl (by simp)
    (by norm_num [listMin, faceDistance, ratDist, FACE_RECOGNITION_TOLERANCE])

/-- Claim C1.  After an acceptance for a person is recorded at instant `t0`, the
in-memory cooldown check suppresses a further attendance attempt for that
person at every instant `t` with `t0 ≤ t < t0 + W` and permits it at every
`t ≥ t0 + W`, where `W` is the cooldown window `cooldownMinutes * 60`
seconds; the boundary instant `t0 + W` itself is permitted (the source
comparison `time_diff < cooldown * 60` is strict). -/
theorem cooldown_window_boundary (cooldownMinutes : ℚ) (last : LastAttendance)
    (name : String) (t0 t : ℚ) :
    (t0 ≤ t → t < t0 + cooldownMinutes * 60 →
      shouldAccept cooldownMinutes (recordAccept last name t0) name t
        = false) ∧
    (t0 + cooldownMinutes * 60 ≤ t →
      shouldAccept cooldownMinutes (recordAccept last name t0) name t
        = true) := by
  constructor
  · intro _ h2
    have hlt : t - t0 < cooldownMinutes * 60 := by linarith
    simp [shouldAccept, recordAccept, hlt]
  · intro h
    have hge : ¬ t - t0 < cooldownMinutes * 60 := by linarith
    simp [shouldAccept, recordAccept, hge]

/-- Witness for C1 (the spec scenario, cooldown 5 minutes): accept `"bob"` at
`t0 = 0`; the attempt at `t = 299 s` (4:59) is suppressed and the attempt at
`t = 300 s` (the boundary `t0 + W`) is permitted. -/
theorem cooldown_window_boundary_witness :
    shouldAccept ATTENDANCE_COOLDOWN_MINUTES
        (recordAccept (fun _ => none) "bob" 0) "bob" 299 = false ∧
    shouldAccept ATTENDANCE_COOLDOWN_MINUTES
        (recordAccept (fun _ => none) "bob" 0) "bob" 300 = true :=
  ⟨(cooldown_window_boundary ATTENDANCE_COOLDOWN_MINUTES (fun _ => none)
      "bob" 0 299).1 (by norm_num)
      (by norm_num [ATTENDANCE_COOLDOWN_MINUTES]),
   (cooldown_window_boundary ATTENDANCE_COOLDOWN_MINUTES (fun _ => none)
      "bob" 0 300).2 (by norm_num [ATTENDANCE_COOLDOWN_MINUTES])⟩

/-- Claim C2.  If the durable `mark_attendance` operation is invoked twice for
the same person, less than the cooldown window apart (with no prior recent
event), the first call succeeds, the second returns the non-fatal
`(False, "Attendance already marked recently")` outcome while leaving the
whole store (attendance rows, CSV log, users) unchanged, and exactly one
durable attendance event for that person exists in the second call's
window. -/
theorem durable_duplicate_suppression (db : DBState) (name : String)
    (c1 c2 : Option ℚ) (t0 t1 : ℚ)
    (h0 : isRecentAttendance db name t0 5 = false)
    (h01 : t0 ≤ t1) (hw : t1 - t0 < 5 * 60) :
    (markAttendance db name c1 t0).2.1 = true ∧
    markAttendance (markAttendance db name c1 t0).1 name c2 t1
      = ((markAttendance db name c1 t0).1, false,
         "Attendance already marked recently") ∧
    ((markAttendance db name c1 t0).1.attendance.filter fun r =>
        decide (r.name = name ∧ t1 - 5 * 60 < r.timestamp)).length = 1 := by
  set row : AttendanceRow :=
    { userId := (getUserByName db name).map Prod.fst, name := name,
      timestamp := t0, date := dateOf t0, confidence := c1 } with hrow
  set db2 : DBState :=
    { attendance := db.attendance ++ [row],
      csv := db.csv ++ [{ name := name, timestamp := t0, confidence := c1 }],
      users := db.users } with hdb2
  have hmark1 : markAttendance db name c1 t0
      = (db2, true, "Attendance marked successfully") := by
    rw [markAttendance, if_neg (by simp [h0])]
  have hnil0 : db.attendance.filter
      (fun r => decide (r.name = name ∧ t0 - 5 * 60 < r.timestamp)) = [] := by
    rw [isRecentAttendance] at h0
    have hlen0 : (db.attendance.filter
        (fun r => decide (r.name = name ∧ t0 - 5 * 60 < r.timestamp))).length
          = 0 := by
      by_contra hne
      simp only [decide_eq_false_iff_not, not_lt, Nat.le_zero] at h0 hne
      omega
    exact List.length_eq_zero.mp hlen0
  have hfilter1 : db.attendance.filter
      (fun r => decide (r.name = name ∧ t1 - 5 * 60 < r.timestamp)) = [] := by
    rw [List.filter_eq_nil] at hnil0 ⊢
    intro r hr
    have h0r := hnil0 r hr
    simp only [decide_eq_true_eq, not_and, not_lt] at h0r ⊢
    intro hname
    have := h0r hname
    linarith
  have hrowp : (fun r => decide (r.name = name ∧ t1 - 5 * 60 < r.timestamp))
      row = true := by
    simp only [hrow, decide_eq_true_eq]
    exact ⟨trivial, by linarith⟩
  have hfilter : ((db.attendance ++ [row]).filter
      (fun r => decide (r.name = name ∧ t1 - 5 * 60 < r.timestamp)))
        = [row] := by
    rw [List.filter_append, hfilter1, List.nil_append, List.filter_cons,
      if_pos hrowp]
    rfl
  refine ⟨by rw [hmark1], ?_, ?_⟩
  · rw [hmark1]
    have hrec : isRecentAttendance db2 name t1 5 = true := by
      rw [isRecentAttendance, hdb2]
      simp only [hfilter]
      rfl
    rw [markAttendance, if_pos (by simp [hrec])]
  · rw [hmark1]
    rw [show db2.attendance = db.attendance ++ [row] from rfl]
    simp only [hfilter]
    rfl

/-- Witness for C2: empty store, first mark at `t0 = 0`, second at
`t1 = 299 s < 300 s`. -/
theorem durable_duplicate_suppression_witness :
    (markAttendance emptyDB "bob" (some (9/10)) 0).2.1 = true ∧
    markAttendance (markAttendance emptyDB "bob" (some (9/10)) 0).1 "bob"
        (some (8/10)) 299
      = ((markAttendance emptyDB "bob" (some (9/10)) 0).1, false,
         "Attendance already marked recently") ∧
    ((markAttendance emptyDB "bob" (some (9/10)) 0).1.attendance.filter
        fun r => decide (r.name = "bob" ∧ 299 - 5 * 60 < r.timestamp)).length
      = 1 :=
  durable_duplicate_suppression emptyDB "bob" (some (9/10)) (some (8/10)) 0 299
    (by rfl) (by norm_num) (by norm_num)

/-- Claim C5.  A face whose match result is the `"Unknown"` sentinel, or whose
confidence is strictly below the configured confidence floor, is discarded by
`process_attendance` before anything happens: the in-memory cooldown guard is
not consulted, the durable recorder is not invoked (empty event trace),
nothing is printed, and the state is unchanged. -/
theorem unknown_or_low_confidence_never_recorded (st : SysState)
    (name : String) (confidence t : ℚ)
    (h : name = "Unknown" ∨ confidence < CONFIDENCE_THRESHOLD) :
    processFace st name confidence t = .ok (st, [], []) := by
  rw [processFace, processFaceWith, if_pos h]

/-- Witness for C5 (the spec scenario): a resolved identity `"bob"` with
confidence `0.55 < 0.6` produces no guard consult, no recorder call, and no
state change. -/
theorem unknown_or_low_confidence_never_recorded_witness :
    processFace freshSys "bob" (55/100) 10 = .ok (freshSys, [], []) :=
  unknown_or_low_confidence_never_recorded freshSys "bob" (55/100) 10
    (Or.inr (by norm_num [CONFIDENCE_THRESHOLD]))

/-- Claim C7 counterexample.  Claim C7 states that when the durable write fails
with a durability error, the in-memory guard state for the person still
updates optimistically.  The code contradicts this: a database exception
propagates out of `process_attendance` uncaught, so no post-state with an
updated `last_attendance` entry is ever produced.  Concretely, for a fresh
system, person `"bob"` (confidence 0.9) at `t = 100` with the durable layer
raising `"disk full"`, there is no ok-outcome at all — in particular none in
which the guard maps `"bob"` to `100`. -/
theorem guard_updated_on_failure_counterexample :
    ¬ ∃ (st' : SysState) (ev : List Event) (lg : List String),
      processFaceWith freshSys "bob" (9/10) 100 (DbOutcome.raise "disk full")
          emptyDB
        = .ok (st', ev, lg) ∧
      st'.lastAttendance "bob" = some 100 := by
  rintro ⟨st', ev, lg, h, -⟩
  have hcond : ¬ ("bob" = "Unknown" ∨ (9:ℚ)/10 < CONFIDENCE_THRESHOLD) := by
    rintro (hc | hc)
    · exact absurd hc (by decide)
    · norm_num [CONFIDENCE_THRESHOLD] at hc
  rw [processFaceWith, if_neg hcond,
    if_neg (by simp [shouldAccept, freshSys])] at h
  exact absurd h (by simp)

/-- Claim C7 amended.  When the durable write fails, the in-memory guard state
does *not* update optimistically; it updates only on success.  A durability
error (database exception) propagates out of `process_attendance` uncaught,
producing no state update at all; a reported failure (`success = False`,
duplicate suppression) leaves the guard map unchanged and surfaces the
outcome with a printed message rather than silently dropping it. -/
theorem guard_updates_only_on_success (st : SysState) (name : String)
    (confidence t : ℚ) (e msg : String) (db' : DBState)
    (hname : name ≠ "Unknown")
    (hconf : ¬ confidence < CONFIDENCE_THRESHOLD)
    (hel : shouldAccept ATTENDANCE_COOLDOWN_MINUTES st.lastAttendance name t
      = true) :
    processFaceWith st name confidence t (DbOutcome.raise e) db'
      = Except.error e ∧
    processFaceWith st name confidence t (DbOutcome.ret false msg) db'
      = .ok ({ lastAttendance := st.lastAttendance, db := db' },
             [Event.cooldownChecked name, Event.recorderInvoked name],
             [msg ++ " for " ++ name]) := by
  have hcond : ¬ (name = "Unknown" ∨ confidence < CONFIDENCE_THRESHOLD) := by
    rintro (h | h)
    · exact hname h
    · exact hconf h
  have hcool : ¬ (shouldAccept ATTENDANCE_COOLDOWN_MINUTES st.lastAttendance
      name t = false) := by simp [hel]
  constructor
  · rw [processFaceWith, if_neg hcond, if_neg hcool]
  · rw [processFaceWith, if_neg hcond, if_neg hcool]
    rfl

/-- Witness for C7 amended: fresh system, person `"bob"`, confidence 0.9 at
`t = 100`. -/
theorem guard_updates_only_on_success_witness :
    processFaceWith freshSys "bob" (9/10) 100 (DbOutcome.raise "disk full")
        emptyDB
      = Except.error "disk full" ∧
    processFaceWith freshSys "bob" (9/10) 100
        (DbOutcome.ret false "Attendance already marked recently") emptyDB
      = .ok ({ lastAttendance := freshSys.lastAttendance, db := emptyDB },
             [Event.cooldownChecked "bob", Event.recorderInvoked "bob"],
             ["Attendance already marked recently" ++ " for " ++ "bob"]) :=
  guard_updates_only_on_success freshSys "bob" (9/10) 100 "disk full"
    "Attendance already marked recently" emptyDB (by simp)
    (by norm_num [CONFIDENCE_THRESHOLD]) (by simp [shouldAccept, freshSys])

/-! ## Helper lemmas: index-set deletion (`remove_person`) -/

theorem foldl_eraseIdx_map_succ {α : Type} :
    ∀ (js : List ℕ) (x : α) (l : List α),
      (js.map (· + 1)).foldl (fun acc i => acc.eraseIdx i) (x :: l)
        = x :: js.foldl (fun acc i => acc.eraseIdx i) l
  | [], _, _ => rfl
  | j :: js, x, l => by
    simp only [List.map_cons, List.foldl_cons]
    exact foldl_eraseIdx_map_succ js x (l.eraseIdx j)

theorem eraseIdxs_map_succ {α : Type} (idxs : List ℕ) (x : α) (l : List α) :
    eraseIdxs (idxs.map (· + 1)) (x :: l) = x :: eraseIdxs idxs l := by
  rw [eraseIdxs, eraseIdxs, ← List.map_reverse]
  exact foldl_eraseIdx_map_succ idxs.reverse x l

theorem eraseIdxs_zero_cons {α : Type} (idxs : List ℕ) (x : α) (l : List α) :
    eraseIdxs (0 :: idxs.map (· + 1)) (x :: l) = eraseIdxs idxs l := by
  rw [eraseIdxs, List.reverse_cons, List.foldl_append]
  have h1 : (idxs.map (· + 1)).reverse.foldl (fun acc i => acc.eraseIdx i)
      (x :: l) = x :: eraseIdxs idxs l := by
    rw [show (idxs.map (· + 1)).reverse.foldl (fun acc i => acc.eraseIdx i)
          (x :: l) = eraseIdxs (idxs.map (· + 1)) (x :: l) from rfl]
    exact eraseIdxs_map_succ idxs x l
  rw [h1]
  rfl

theorem eraseIdxs_indicesToRemove_self :
    ∀ (names : List String) (t : String),
      eraseIdxs (indicesToRemove names t) names
        = names.filter fun n => decide (n ≠ t)
  | [], _ => rfl
  | n :: ns, t => by
    by_cases hn : n = t
    · rw [indicesToRemove, if_pos hn, List.singleton_append,
        eraseIdxs_zero_cons, List.filter_cons,
        if_neg (by simp [hn]), eraseIdxs_indicesToRemove_self ns t]
    · rw [indicesToRemove, if_neg hn, List.nil_append, eraseIdxs_map_succ,
        List.filter_cons, if_pos (by simp [hn]),
        eraseIdxs_indicesToRemove_self ns t]

theorem eraseIdxs_indicesToRemove_zip {α : Type} :
    ∀ (names : List String) (l : List α) (t : String),
      names.length = l.length →
      (eraseIdxs (indicesToRemove names t) l).zip
          (eraseIdxs (indicesToRemove names t) names)
        = (l.zip names).filter fun p => decide (p.2 ≠ t)
  | [], [], _, _ => rfl
  | [], _ :: _, _, h => by simp at h
  | _ :: _, [], _, h => by simp at h
  | n :: ns, x :: xs, t, h => by
    have hlen : ns.length = xs.length := by
      simpa using h
    by_cases hn : n = t
    · rw [indicesToRemove, if_pos hn, List.singleton_append,
        eraseIdxs_zero_cons, eraseIdxs_zero_cons, List.zip_cons_cons,
        List.filter_cons, if_neg (by simp [hn])]
      exact eraseIdxs_indicesToRemove_zip ns xs t hlen
    · rw [indicesToRemove, if_neg hn, List.nil_append, eraseIdxs_map_succ,
        eraseIdxs_map_succ, List.zip_cons_cons, List.zip_cons_cons,
        List.filter_cons, if_pos (by simp [hn]),
        eraseIdxs_indicesToRemove_zip ns xs t hlen]

theorem eraseIdx_length_congr {α β : Type} :
    ∀ (l1 : List α) (l2 : List β) (j : ℕ), l1.length = l2.length →
      (l1.eraseIdx j).length = (l2.eraseIdx j).length
  | [], [], _, _ => rfl
  | [], _ :: _, _, h => by simp at h
  | _ :: _, [], _, h => by simp at h
  | _ :: _, _ :: _, 0, h => by simpa using h
  | x :: xs, y :: ys, j + 1, h => by
    have hlen : xs.length = ys.length := by simpa using h
    simpa using eraseIdx_length_congr xs ys j hlen

theorem foldl_eraseIdx_length_congr {α β : Type} :
    ∀ (js : List ℕ) (l1 : List α) (l2 : List β), l1.length = l2.length →
      (js.foldl (fun acc i => acc.eraseIdx i) l1).length
        = (js.foldl (fun acc i => acc.eraseIdx i) l2).length
  | [], _, _, h => h
  | j :: js, l1, l2, h => by
    simp only [List.foldl_cons]
    exact foldl_eraseIdx_length_congr js (l1.eraseIdx j) (l2.eraseIdx j)
      (eraseIdx_length_congr l1 l2 j h)

theorem eraseIdxs_length_congr {α β : Type} (idxs : List ℕ) (l1 : List α)
    (l2 : List β) (h : l1.length = l2.length) :
    (eraseIdxs idxs l1).length = (eraseIdxs idxs l2).length :=
  foldl_eraseIdx_length_congr idxs.reverse l1 l2 h

theorem indicesToRemove_eq_nil_iff (names : List String) (t : String) :
    indicesToRemove names t = [] ↔ t ∉ names := by
  induction names with
  | nil => simp [indicesToRemove]
  | cons n ns ih =>
    rw [indicesToRemove]
    by_cases hn : n = t
    · simp [hn]
    · simp only [if_neg hn, List.nil_append, List.map_eq_nil, ih,
        List.mem_cons]
      constructor
      · rintro hnm (rfl | hm)
        · exact hn rfl
        · exact hnm hm
      · intro hnm hm
        exact hnm (Or.inr hm)

/-- Claim C9.  `remove_person` deletes every embedding owned by the given id —
the remaining names are exactly the other identities' names in their original
order, the remaining (embedding, name) pairs are exactly the other pairs in
their original relative order, and the id no longer appears among the known
identities (`get_known_names`).  When the id owns no embeddings the outcome
is the unchanged-state "nothing to remove" return value (`False`), a normal
result rather than a distinct error. -/
theorem remove_person_spec {α : Type} (enc : List α) (names : List String)
    (t : String) (hlen : names.length = enc.length) :
    (removePerson enc names t).2.1
      = names.filter (fun n => decide (n ≠ t)) ∧
    ((removePerson enc names t).1.zip (removePerson enc names t).2.1
      = (enc.zip names).filter fun p => decide (p.2 ≠ t)) ∧
    t ∉ getKnownNames (removePerson enc names t).2.1 ∧
    (t ∉ names → removePerson enc names t = (enc, names, false)) := by
  by_cases hmem : t ∈ names
  · have hne : indicesToRemove names t ≠ [] := by
      rw [ne_eq, indicesToRemove_eq_nil_iff]
      simpa using hmem
    have hnotempty : ¬ ((indicesToRemove names t).isEmpty = true) := by
      simpa [List.isEmpty_iff] using hne
    have hrp : removePerson enc names t
        = (eraseIdxs (indicesToRemove names t) enc,
           eraseIdxs (indicesToRemove names t) names, true) := by
      simp only [removePerson]
      rw [if_neg hnotempty]
    rw [hrp]
    refine ⟨eraseIdxs_indicesToRemove_self names t, ?_, ?_, ?_⟩
    · exact eraseIdxs_indicesToRemove_zip names enc t hlen
    · rw [show ((eraseIdxs (indicesToRemove names t) enc,
          eraseIdxs (indicesToRemove names t) names, true) :
            List α × List String × Bool).2.1
          = eraseIdxs (indicesToRemove names t) names from rfl,
        eraseIdxs_indicesToRemove_self names t]
      simp [getKnownNames, List.mem_dedup, List.mem_filter]
    · intro h
      exact absurd hmem h
  · have hnil : indicesToRemove names t = [] :=
      (indicesToRemove_eq_nil_iff names t).mpr hmem
    have hrp : removePerson enc names t = (enc, names, false) := by
      simp only [removePerson]
      rw [hnil]
      rfl
    rw [hrp]
    refine ⟨?_, ?_, ?_, fun _ => rfl⟩
    · symm
      rw [List.filter_eq_self]
      intro a ha
      simp only [decide_eq_true_eq, ne_eq]
      rintro rfl
      exact hmem ha
    · symm
      rw [List.filter_eq_self]
      intro p hp
      have hmem2 := List.of_mem_zip hp
      simp only [decide_eq_true_eq, ne_eq]
      rintro hpt
      exact hmem (hpt ▸ hmem2.2)
    · simp only [getKnownNames, List.mem_dedup]
      exact hmem

/-- Witness for C9: store `[10, 20, 30]` / `["a", "b", "a"]`, remove `"a"`:
both of `"a"`'s embeddings are deleted, `"b"`'s pair `(20, "b")` survives in
place, `"a"` is gone from the known identities. -/
theorem remove_person_spec_witness :
    (removePerson [(10:ℚ), 20, 30] ["a", "b", "a"] "a").2.1
      = (["a", "b", "a"].filter fun n => decide (n ≠ "a")) ∧
    ((removePerson [(10:ℚ), 20, 30] ["a", "b", "a"] "a").1.zip
        (removePerson [(10:ℚ), 20, 30] ["a", "b", "a"] "a").2.1
      = (([(10:ℚ), 20, 30].zip ["a", "b", "a"]).filter fun p =>
          decide (p.2 ≠ "a"))) ∧
    "a" ∉ getKnownNames (removePerson [(10:ℚ), 20, 30] ["a", "b", "a"] "a").2.1 ∧
    ("a" ∉ (["a", "b", "a"] : List String) →
      removePerson [(10:ℚ), 20, 30] ["a", "b", "a"] "a"
        = ([(10:ℚ), 20, 30], ["a", "b", "a"], false)) :=
  remove_person_spec [(10:ℚ), 20, 30] ["a", "b", "a"] "a" rfl

/-- Claim C10.  The parallel-lists invariant `len known_encodings =
len known_names`: `load_encodings` preserves it (given that the two persisted
collections it reads were saved from a state satisfying it, i.e. have equal
lengths; any load failure resets both to `[]`), `add_person` and
`remove_person` preserve it unconditionally, and under the invariant the
argmin over face distances always indexes `known_names` in bounds, so
`recognize_faces` never faults (`isSome`). -/
theorem parallel_lists_invariant {α : Type} (d : α → α → ℚ) :
    (∀ (filesExist : Bool) (encodingsData : Except String (List α))
        (namesData : Except String (List String)),
      (∀ e n, encodingsData = .ok e → namesData = .ok n →
        e.length = n.length) →
      (loadEncodings filesExist encodingsData namesData).1.length
        = (loadEncodings filesExist encodingsData namesData).2.length) ∧
    (∀ (enc : List α) (names : List String) (name : String)
        (personEncodings : List α),
      enc.length = names.length →
      (addPerson enc names name personEncodings).1.length
        = (addPerson enc names name personEncodings).2.1.length) ∧
    (∀ (enc : List α) (names : List String) (name : String),
      enc.length = names.length →
      (removePerson enc names name).1.length
        = (removePerson enc names name).2.1.length) ∧
    (∀ (tol : ℚ) (enc : List α) (names : List String) (x : α),
      enc.length = names.length →
      (recognizeOne d tol enc names x).isSome = true ∧
      (enc ≠ [] → npArgmin (faceDistance d enc x) < names.length)) := by
  refine ⟨?_, ?_, ?_, ?_⟩
  · intro fe ed nd hcons
    cases fe with
    | false => rfl
    | true =>
      cases ed with
      | error e => rfl
      | ok e =>
        cases nd with
        | error e2 => rfl
        | ok n => exact hcons e n rfl rfl
  · intro enc names name pe hlen
    by_cases hpe : pe.isEmpty = true
    · rw [addPerson, if_pos hpe]
      exact hlen
    · rw [addPerson, if_neg hpe]
      simp [hlen]
  · intro enc names name hlen
    by_cases hie : (indicesToRemove names name).isEmpty = true
    · simp only [removePerson]
      rw [if_pos hie]
      exact hlen
    · simp only [removePerson]
      rw [if_neg hie]
      exact eraseIdxs_length_congr (indicesToRemove names name) enc names hlen
  · intro tol enc names x hlen
    constructor
    · by_cases henc : enc = []
      · subst henc
        simp [recognizeOne, faceDistance]
      · have hne : faceDistance d enc x ≠ [] := by simp [faceDistance, henc]
        have hil : npArgmin (faceDistance d enc x) < names.length := by
          have h1 := npArgmin_lt_length _ hne
          have h2 : (faceDistance d enc x).length = enc.length := by
            simp [faceDistance]
          omega
        rw [recognizeOne_eq d tol enc names x henc]
        by_cases htol : listMin (faceDistance d enc x) ≤ tol
        · rw [if_pos htol, List.get?_eq_get hil]
          rfl
        · rw [if_neg htol]
          rfl
    · intro henc
      have hne : faceDistance d enc x ≠ [] := by simp [faceDistance, henc]
      have h1 := npArgmin_lt_length _ hne
      have h2 : (faceDistance d enc x).length = enc.length := by
        simp [faceDistance]
      omega

/-- Witness for C10: each conjunct applied to a concrete store satisfying the
invariant. -/
theorem parallel_lists_invariant_witness :
    ((loadEncodings true (Except.ok [(1:ℚ)]) (Except.ok ["a"])).1.length
      = (loadEncodings true (Except.ok [(1:ℚ)]) (Except.ok ["a"])).2.length) ∧
    ((addPerson [(1:ℚ)] ["a"] "b" [2, 3]).1.length
      = (addPerson [(1:ℚ)] ["a"] "b" [2, 3]).2.1.length) ∧
    ((removePerson [(1:ℚ), 2] ["a", "b"] "a").1.length
      = (removePerson [(1:ℚ), 2] ["a", "b"] "a").2.1.length) ∧
    ((recognizeOne ratDist FACE_RECOGNITION_TOLERANCE [(1:ℚ), 2] ["a", "b"]
        1).isSome = true ∧
      (([(1:ℚ), 2] : List ℚ) ≠ [] →
        npArgmin (faceDistance ratDist [(1:ℚ), 2] 1)
          < (["a", "b"] : List String).length)) :=
  ⟨(parallel_lists_invariant ratDist).1 true (Except.ok [(1:ℚ)])
      (Except.ok ["a"]) (fun e n he hn => by cases he; cases hn; rfl),
   (parallel_lists_invariant ratDist).2.1 [(1:ℚ)] ["a"] "b" [2, 3] rfl,
   (parallel_lists_invariant ratDist).2.2.1 [(1:ℚ), 2] ["a", "b"] "a" rfl,
   (parallel_lists_invariant ratDist).2.2.2 FACE_RECOGNITION_TOLERANCE
      [(1:ℚ), 2] ["a", "b"] 1 rfl⟩

end SmartAttendance
